import Mathlib

/-!
Verification of `third_eye.py` (THE THIRD EYE: Agent / Anti-Agent / Observer).

The script is sequential and effectful; we embed it shallowly:

* `call_opus` (lines 83-115) is modelled over an *attempt oracle*
  `attempts : ℕ → AttemptOutcome` giving the outcome of each network attempt
  (success with a response body text, an HTTP error, or any other exception).
  The function returns the result (`Option String`, `none` for exhausted
  retries) together with the list of backoff sleep durations performed in the
  failure branches, in order.  The fixed 3-second post-success courtesy sleep
  (line 105) is not a backoff sleep and is not recorded in that list.

* `run_dialectic` (lines 132-299) is modelled over a *call oracle*
  `o : ℕ → Option String` giving the value returned by the i-th `call_opus`
  invocation of the run (`none` = exhausted retries; `some s` = the returned,
  already-trimmed text, possibly empty).  Prompt strings only feed the network
  call, which the oracle abstracts, so they are not tracked.

* the embedding subsystem (`embedder`, `embed`, `cosine_similarity`) is an
  external deterministic ML model; it is abstracted by a parameter
  `simFn : String → String → ℚ` with `simFn a b` standing for the cosine
  similarity of the embeddings of `a` and `b` (matrix entry
  `sims[i][j]` for texts `a`, `b`).  Real numbers are modelled as `ℚ`.

* Python dictionary keys that are present with value `None` (JSON `null`) are
  distinguished from absent keys: `Option`-valued fields model the value
  (`none` = `null`), and `DialecticResult.keys` lists which keys the result
  dictionary actually has, mirroring the dict literal at lines 245-254 plus
  the conditional inserts at lines 279 and 295.
-/

/-- Outcome of one network attempt inside `call_opus`: the `with urlopen`
block succeeds and yields a response whose first content block has this text
(line 106 then trims it), or raises `urllib.error.HTTPError` (line 107), or
raises any other exception (line 112: URLError, timeout, JSON/KeyError, ...). -/
inductive AttemptOutcome where
  | success (text : String)
  | httpError
  | otherError
deriving DecidableEq, Repr

/-- Whether the attempt raises (either except branch). -/
def AttemptOutcome.isFailure : AttemptOutcome → Bool
  | .success _ => false
  | _ => true

/-- The loop body of `call_opus`, lines 84-114, by structural recursion on the
remaining fuel (`fuel` = `retries - attempt` at entry).  Returns the result and
the list of backoff sleeps performed, in order.  On success the code returns
`body["content"][0]["text"].strip()` (line 106); on `HTTPError` at a non-final
attempt it sleeps `min(10 * (2 ** attempt), 120)` (line 111); on any other
exception at a non-final attempt it sleeps `10` (line 114); after the loop it
returns `None` (line 115). -/
def callOpusGo (attempts : ℕ → AttemptOutcome) (retries : ℕ) :
    ℕ → ℕ → Option String × List ℕ
  | _, 0 => (none, [])
  | attempt, fuel + 1 =>
    match attempts attempt with
    | .success s => (some s.trim, [])
    | .httpError =>
      let rest := callOpusGo attempts retries (attempt + 1) fuel
      (rest.1, (if attempt < retries - 1 then [min (10 * 2 ^ attempt) 120] else []) ++ rest.2)
    | .otherError =>
      let rest := callOpusGo attempts retries (attempt + 1) fuel
      (rest.1, (if attempt < retries - 1 then [10] else []) ++ rest.2)

/-- `call_opus(messages, system_prompt, retries=6)`, lines 83-115, over the
attempt oracle. -/
def call_opus (attempts : ℕ → AttemptOutcome) (retries : ℕ := 6) :
    Option String × List ℕ :=
  callOpusGo attempts retries 0 retries

/-- Python truthiness of a `str | None` value: `None` and `""` are falsy.
Every guard in `run_dialectic` (`if not agent_response`, `if observer_response`,
`if agent_final`, ...) is this test. -/
def truthy : Option String → Bool
  | none => false
  | some s => !(s == "")

/-- Role tag of a transcript entry (the `"role"` field of the dicts appended
at lines 152, 172, 188, 204, 226). -/
inductive Role where
  | agent
  | anti_agent
  | observer
  | observer_synthesis
deriving DecidableEq, Repr

/-- The `"round"` field of a transcript entry: an integer for the initial turn
(0) and the numbered rounds, or the string `"final"` for the synthesis entry
(line 226). -/
inductive RoundTag where
  | num (r : ℕ)
  | final
deriving DecidableEq, Repr

/-- One transcript entry `{"round": ..., "role": ..., "text": ...}`. -/
structure Turn where
  round : RoundTag
  role : Role
  text : String
deriving DecidableEq, Repr

/-- The three pairwise cosine similarities stored under `"similarities"`
(lines 279-283). -/
structure Similarities where
  agent_anti : ℚ
  agent_observer : ℚ
  anti_observer : ℚ
deriving DecidableEq, Repr

/-- The per-seed result dictionary built at lines 245-254 and conditionally
extended at lines 279 and 295.  `none` in an `Option` field is Python `None`
(JSON `null`); whether the `"similarities"` / `"observer_equidistance"` keys
exist at all is recorded by `DialecticResult.keys`. -/
structure DialecticResult where
  seed : String
  seed_name : String
  rounds : ℕ
  transcript : List Turn
  observer_reports : List (ℕ × String)
  final_synthesis : Option String
  agent_final : Option String
  anti_final : Option String
  similarities : Option Similarities
  observer_equidistance : Option ℚ
deriving DecidableEq, Repr

/-- The keys of the per-seed result dictionary: the eight keys of the literal
at lines 245-254, plus `"similarities"` (line 279) and
`"observer_equidistance"` (line 295) exactly when the similarity gate ran. -/
def DialecticResult.keys (r : DialecticResult) : List String :=
  ["seed", "seed_name", "rounds", "transcript", "observer_reports",
   "final_synthesis", "agent_final", "anti_final"]
    ++ (if r.similarities.isSome then ["similarities"] else [])
    ++ (if r.observer_equidistance.isSome then ["observer_equidistance"] else [])

/-- Return value of `run_dialectic`: either the error dictionary
`{"error": msg}` of line 148 or a full result dictionary. -/
inductive RunResult where
  | error (msg : String)
  | ok (r : DialecticResult)
deriving DecidableEq, Repr

/-- Whether the run returned the line-148 error dictionary. -/
def RunResult.isError : RunResult → Bool
  | .error _ => true
  | .ok _ => false

/-- Keys of the returned dictionary: the error dictionary of line 148 has the
single key `"error"`. -/
def RunResult.keys : RunResult → List String
  | .error _ => ["error"]
  | .ok r => r.keys

/-- Transcript of the returned dictionary (the error dictionary has none). -/
def RunResult.transcriptOf : RunResult → List Turn
  | .error _ => []
  | .ok r => r.transcript

/-- The `"final_synthesis"` value of a successful result. -/
def RunResult.finalSynthesisOf : RunResult → Option String
  | .error _ => none
  | .ok r => r.final_synthesis

/-- The `"similarities"` value of a successful result (`none` when the key is
absent or the run failed: `result.get("similarities", {})` at line 322 is
falsy in both cases). -/
def RunResult.simsOf : RunResult → Option Similarities
  | .error _ => none
  | .ok r => r.similarities

/-- Mutable state of the round loop (lines 154-204): the transcript, the
observer reports, and how many `call_opus` invocations the run has made so
far (the index of the next call in the call oracle).  The Python variables
`agent_response` / `anti_response` only feed prompt strings, which the call
oracle abstracts, so they are not tracked. -/
structure LoopState where
  transcript : List Turn
  observer_reports : List (ℕ × String)
  calls : ℕ
deriving DecidableEq, Repr

/-- The `for r in range(1, rounds + 1)` loop, lines 154-204, by structural
recursion on the number of remaining rounds (`rem`), with `r` the current
round number.  CHALLENGE: falsy response breaks the loop (line 167); DEFEND:
falsy response breaks the loop (line 183); OBSERVE: a truthy response appends
a report and a transcript turn, a falsy one is dropped (lines 201-204). -/
def roundLoop (o : ℕ → Option String) : ℕ → ℕ → LoopState → LoopState
  | _, 0, st => st
  | r, rem + 1, st =>
    let anti_response := o st.calls
    let st1 : LoopState := { st with calls := st.calls + 1 }
    if truthy anti_response = false then st1
    else
      let st2 : LoopState := { st1 with
        transcript := st1.transcript ++ [⟨.num r, .anti_agent, anti_response.getD ""⟩] }
      let agent_response := o st2.calls
      let st3 : LoopState := { st2 with calls := st2.calls + 1 }
      if truthy agent_response = false then st3
      else
        let st4 : LoopState := { st3 with
          transcript := st3.transcript ++ [⟨.num r, .agent, agent_response.getD ""⟩] }
        let observer_response := o st4.calls
        let st5 : LoopState := { st4 with calls := st4.calls + 1 }
        let st6 : LoopState :=
          if truthy observer_response then
            { st5 with
              observer_reports := st5.observer_reports ++ [(r, observer_response.getD "")],
              transcript := st5.transcript ++ [⟨.num r, .observer, observer_response.getD ""⟩] }
          else st5
        roundLoop o (r + 1) rem st6

/-- Lines 245-299: build the result dictionary, then run the similarity gate.
`texts_to_compare` collects the truthy values among `agent_final`,
`anti_final`, `final_synthesis` in that order (lines 256-263); when the gate
`len(texts_to_compare) >= 3` passes (line 265) all three labels are present
with `idx = {agent: 0, anti_agent: 1, observer: 2}`, so
`sims[idx[a]][idx[b]]` is `simFn` of the corresponding pair of texts in the
source's argument order (lines 270-272), and `observer_equidistance` is
`abs(agent_obs_sim - anti_obs_sim)` (lines 294-295). -/
def mkResults (simFn : String → String → ℚ) (seed_text seed_name : String)
    (rounds : ℕ) (transcript : List Turn) (observer_reports : List (ℕ × String))
    (final_synthesis agent_final anti_final : Option String) : DialecticResult :=
  let texts_to_compare : List String :=
    (if truthy agent_final then [agent_final.getD ""] else [])
      ++ (if truthy anti_final then [anti_final.getD ""] else [])
      ++ (if truthy final_synthesis then [final_synthesis.getD ""] else [])
  let base : DialecticResult :=
    { seed := seed_text, seed_name := seed_name, rounds := rounds,
      transcript := transcript, observer_reports := observer_reports,
      final_synthesis := final_synthesis, agent_final := agent_final,
      anti_final := anti_final, similarities := none,
      observer_equidistance := none }
  if 3 ≤ texts_to_compare.length then
    let agent_anti_sim := simFn (agent_final.getD "") (anti_final.getD "")
    let agent_obs_sim := simFn (agent_final.getD "") (final_synthesis.getD "")
    let anti_obs_sim := simFn (anti_final.getD "") (final_synthesis.getD "")
    let equidistance := |agent_obs_sim - anti_obs_sim|
    { base with
      similarities := some ⟨agent_anti_sim, agent_obs_sim, anti_obs_sim⟩,
      observer_equidistance := some equidistance }
  else base

/-- `run_dialectic(seed_text, seed_name, rounds)`, lines 132-299, over the
call oracle `o` and the abstracted similarity function `simFn`.  Call 0 is the
initial Agent interpretation (fatal when falsy, line 147-148); the round loop
then consumes three calls per completed round; after the loop come the
synthesis call (line 218), the `agent_final` call (line 232) and the
`anti_final` call (line 240), in that order.  A truthy synthesis appends the
`"final"` transcript entry (line 226).  (For `rounds = 0` the Python code
would hit an unbound `anti_response` at line 212; theorems about the loop
therefore assume `1 ≤ rounds`, matching the fixed configuration `ROUNDS = 10`.) -/
def run_dialectic (o : ℕ → Option String) (simFn : String → String → ℚ)
    (seed_text seed_name : String) (rounds : ℕ) : RunResult :=
  let agent_response := o 0
  if truthy agent_response = false then
    .error "Agent failed on initial interpretation"
  else
    let st0 : LoopState :=
      { transcript := [⟨.num 0, .agent, agent_response.getD ""⟩],
        observer_reports := [], calls := 1 }
    let st := roundLoop o 1 rounds st0
    let final_synthesis := o st.calls
    let transcript2 :=
      if truthy final_synthesis then
        st.transcript ++ [⟨.final, .observer_synthesis, final_synthesis.getD ""⟩]
      else st.transcript
    let agent_final := o (st.calls + 1)
    let anti_final := o (st.calls + 2)
    .ok (mkResults simFn seed_text seed_name rounds transcript2
      st.observer_reports final_synthesis agent_final anti_final)

/-- Expected transcript contribution of `rem` fully completed rounds starting
at round `r` with `c` calls already made: each round appends its anti_agent
turn, its agent turn, and (when the observer call is truthy) its observer
turn, consuming three oracle slots. -/
def triples (o : ℕ → Option String) : ℕ → ℕ → ℕ → List Turn
  | _, 0, _ => []
  | r, rem + 1, c =>
    ⟨.num r, .anti_agent, (o c).getD ""⟩ ::
      ⟨.num r, .agent, (o (c + 1)).getD ""⟩ ::
      ((if truthy (o (c + 2)) then [⟨.num r, .observer, (o (c + 2)).getD ""⟩] else [])
        ++ triples o (r + 1) rem (c + 3))

/-- Expected observer reports of `rem` fully completed rounds starting at
round `r` with `c` calls already made. -/
def reportsOf (o : ℕ → Option String) : ℕ → ℕ → ℕ → List (ℕ × String)
  | _, 0, _ => []
  | r, rem + 1, c =>
    (if truthy (o (c + 2)) then [(r, (o (c + 2)).getD "")] else [])
      ++ reportsOf o (r + 1) rem (c + 3)

/-- The loop state as of line 154: the initial Agent turn is on the transcript
(line 152) and one call has been made. -/
def initState (o : ℕ → Option String) : LoopState :=
  { transcript := [⟨.num 0, .agent, (o 0).getD ""⟩],
    observer_reports := [], calls := 1 }

/-- Order on round tags: numeric tags by value, with the `"final"` tag
greatest (it is only ever appended after every numbered round). -/
def tagLE : RoundTag → RoundTag → Bool
  | .num a, .num b => a ≤ b
  | _, .final => true
  | .final, .num _ => false

/-- Invariant of the round loop at round `r`: every transcript turn so far is
tagged with a numeric round below `r`, has non-empty text, and is not a
synthesis turn; observer-report texts are non-empty; and the transcript's
round tags are non-decreasing. -/
def LoopInv (st : LoopState) (r : ℕ) : Prop :=
  (∀ t ∈ st.transcript, (∃ m, t.round = RoundTag.num m ∧ m < r) ∧
    t.text ≠ "" ∧ t.role ≠ Role.observer_synthesis) ∧
  (∀ p ∈ st.observer_reports, p.2 ≠ "") ∧
  List.Chain' (fun a b => tagLE a b = true) (st.transcript.map Turn.round)

/-- Whether a turn's round tag is a numeric index between 1 and R, as claimed
by the spec's invariant (the code violates this: the initial turn is tagged 0
and the synthesis turn is tagged with the string `"final"`). -/
def roundIndexInRange (R : ℕ) (t : Turn) : Bool :=
  match t.round with
  | .num k => decide (1 ≤ k) && decide (k ≤ R)
  | .final => false

/-- Collapse a falsy call result (`None` or the empty string) to `None`,
keeping truthy results unchanged.  Identifying a call oracle with its
normalization expresses that every call site tests only Python truthiness. -/
def normalizeFalsy (x : Option String) : Option String :=
  if truthy x then x else none

/-- Everything the claims observe about a run result except the three raw
final-text fields: error status, transcript, observer reports, similarity
block, equidistance, and the dictionary's key set. -/
def RunResult.observable : RunResult →
    Option (List Turn × List (ℕ × String) × Option Similarities × Option ℚ ×
      List String)
  | .error _ => none
  | .ok r => some (r.transcript, r.observer_reports, r.similarities,
      r.observer_equidistance, r.keys)

/-- The backoff sleep performed in the except-branch for a failing attempt
`j` (lines 110-111 and 113-114): nothing on the last attempt; otherwise
`min(10 * 2 ** j, 120)` for an HTTP error and a flat `10` for any other
exception. -/
def attemptSleep (oc : AttemptOutcome) (j retries : ℕ) : List ℕ :=
  match oc with
  | .success _ => []
  | .httpError => if j < retries - 1 then [min (10 * 2 ^ j) 120] else []
  | .otherError => if j < retries - 1 then [10] else []

/-- Backoff sleeps performed by attempts `a, a+1, ..., a+k-1`, in order. -/
def prefixSleeps (attempts : ℕ → AttemptOutcome) (retries : ℕ) : ℕ → ℕ → List ℕ
  | _, 0 => []
  | a, k + 1 =>
    attemptSleep (attempts a) a retries ++ prefixSleeps attempts retries (a + 1) k

/-- The "Who won?" verdict of the cross-seed table (line 327):
`"AGENT" if ao > an else "SKEPTIC" if an > ao else "NOVEL"`. -/
def winnerLabel (ao an : ℚ) : String :=
  if ao > an then "AGENT" else if an > ao then "SKEPTIC" else "NOVEL"

/-- The equidistance label (line 333):
`"NOVEL" if eq < 0.1 else "LEANS" if eq < 0.2 else "SIDED"`. -/
def eqLabel (eq : ℚ) : String :=
  if eq < 0.1 then "NOVEL" else if eq < 0.2 then "LEANS" else "SIDED"

/-- One row of the "Who won?" table (lines 321-328): produced only when
`result.get("similarities", {})` is truthy, comparing `agent_observer` with
`anti_observer`. -/
def seedVerdictRow (name : String) (res : RunResult) :
    Option (String × String) :=
  match res.simsOf with
  | none => none
  | some sb => some (name, winnerLabel sb.agent_observer sb.anti_observer)

/-- `result.get("observer_equidistance", 999)` of line 332: the stored
equidistance, defaulting to 999 when the key is absent (error results
included). -/
def eqOf : RunResult → ℚ
  | .error _ => 999
  | .ok r => r.observer_equidistance.getD 999

/-- One row of the equidistance listing (lines 331-334), printed for every
seed. -/
def seedEqRow (name : String) (res : RunResult) : String × ℚ × String :=
  (name, eqOf res, eqLabel (eqOf res))

/-- The "Who won?" table over all seeds (lines 321-328). -/
def verdictRows (all : List (String × RunResult)) : List (String × String) :=
  all.filterMap (fun p => seedVerdictRow p.1 p.2)

/-- The equidistance listing over all seeds (lines 331-334). -/
def eqRows (all : List (String × RunResult)) : List (String × ℚ × String) :=
  all.map (fun p => seedEqRow p.1 p.2)

/-- The `"agent_final"` value of a successful result. -/
def RunResult.agentFinalOf : RunResult → Option String
  | .error _ => none
  | .ok r => r.agent_final

/-- The `"anti_final"` value of a successful result. -/
def RunResult.antiFinalOf : RunResult → Option String
  | .error _ => none
  | .ok r => r.anti_final

/-- The `"observer_equidistance"` value of a successful result. -/
def RunResult.equidistanceOf : RunResult → Option ℚ
  | .error _ => none
  | .ok r => r.observer_equidistance

theorem roundLoop_break (o : ℕ → Option String) (r rem : ℕ) (st : LoopState)
    (h : truthy (o st.calls) = false) :
    roundLoop o r (rem + 1) st = { st with calls := st.calls + 1 } := by
  simp [roundLoop, h]

theorem roundLoop_ok_all (o : ℕ → Option String) :
    ∀ (a : ℕ) (r b : ℕ) (st : LoopState),
      (∀ j < a, truthy (o (st.calls + 3 * j)) = true ∧
        truthy (o (st.calls + 3 * j + 1)) = true) →
      roundLoop o r (a + b) st =
        roundLoop o (r + a) b
          { transcript := st.transcript ++ triples o r a st.calls,
            observer_reports := st.observer_reports ++ reportsOf o r a st.calls,
            calls := st.calls + 3 * a } := by
  intro a
  induction a with
  | zero =>
    intro r b st _
    simp [triples, reportsOf]
  | succ a ih =>
    intro r b st h
    have h0 := h 0 (Nat.succ_pos a)
    simp only [Nat.mul_zero, Nat.add_zero] at h0
    have hsh : ∀ j < a, truthy (o (st.calls + 3 + 3 * j)) = true ∧
        truthy (o (st.calls + 3 + 3 * j + 1)) = true := by
      intro j hj
      have hj1 := h (j + 1) (by omega)
      have e1 : st.calls + 3 * (j + 1) = st.calls + 3 + 3 * j := by ring
      have e2 : st.calls + 3 * (j + 1) + 1 = st.calls + 3 + 3 * j + 1 := by ring
      rw [e1] at hj1
      exact hj1
    have hstep : a + 1 + b = (a + b) + 1 := by omega
    rw [hstep]
    set tmid : List Turn :=
      (if truthy (o (st.calls + 2)) then
        [⟨.num r, .observer, (o (st.calls + 2)).getD ""⟩] else []) with htmid
    set rmid : List (ℕ × String) :=
      (if truthy (o (st.calls + 2)) then [(r, (o (st.calls + 2)).getD "")] else [])
        with hrmid
    have step1 : roundLoop o r ((a + b) + 1) st =
        roundLoop o (r + 1) (a + b)
          { transcript := st.transcript ++
              (⟨.num r, .anti_agent, (o st.calls).getD ""⟩ ::
                ⟨.num r, .agent, (o (st.calls + 1)).getD ""⟩ :: tmid),
            observer_reports := st.observer_reports ++ rmid,
            calls := st.calls + 3 } := by
      by_cases hobs : truthy (o (st.calls + 1 + 1)) = true
      · have hobs2 : truthy (o (st.calls + 2)) = true := hobs
        rw [roundLoop]
        simp [h0.1, h0.2, htmid, hrmid, hobs, hobs2, List.append_assoc]
      · rw [Bool.not_eq_true] at hobs
        have hobs2 : truthy (o (st.calls + 2)) = false := hobs
        rw [roundLoop]
        simp [h0.1, h0.2, htmid, hrmid, hobs, hobs2, List.append_assoc]
    rw [step1, ih (r + 1) b _ hsh]
    have er : r + 1 + a = r + (a + 1) := by omega
    rw [er]
    congr 1
    simp only [LoopState.mk.injEq]
    refine ⟨?_, ?_, by omega⟩
    · rw [triples]
      simp [htmid, List.append_assoc]
    · rw [reportsOf]
      simp [hrmid]

theorem mkResults_fields (simFn : String → String → ℚ) (s n : String) (R : ℕ)
    (tr : List Turn) (reps : List (ℕ × String)) (fs af nf : Option String) :
    (mkResults simFn s n R tr reps fs af nf).transcript = tr ∧
    (mkResults simFn s n R tr reps fs af nf).observer_reports = reps ∧
    (mkResults simFn s n R tr reps fs af nf).final_synthesis = fs ∧
    (mkResults simFn s n R tr reps fs af nf).agent_final = af ∧
    (mkResults simFn s n R tr reps fs af nf).anti_final = nf := by
  unfold mkResults
  refine ⟨?_, ?_, ?_, ?_, ?_⟩ <;> (dsimp only; repeat' split) <;> rfl

theorem mkResults_similarities (simFn : String → String → ℚ) (s n : String)
    (R : ℕ) (tr : List Turn) (reps : List (ℕ × String)) (fs af nf : Option String) :
    (mkResults simFn s n R tr reps fs af nf).similarities =
      (if truthy af && truthy nf && truthy fs then
        some ⟨simFn (af.getD "") (nf.getD ""), simFn (af.getD "") (fs.getD ""),
          simFn (nf.getD "") (fs.getD "")⟩
       else none) ∧
    (mkResults simFn s n R tr reps fs af nf).observer_equidistance =
      (if truthy af && truthy nf && truthy fs then
        some |simFn (af.getD "") (fs.getD "") - simFn (nf.getD "") (fs.getD "")|
       else none) := by
  cases haf : truthy af <;> cases hnf : truthy nf <;> cases hfs : truthy fs <;>
    simp [mkResults, haf, hnf, hfs]

theorem run_dialectic_of_fail (o : ℕ → Option String) (simFn : String → String → ℚ)
    (s n : String) (R : ℕ) (h : truthy (o 0) = false) :
    run_dialectic o simFn s n R = .error "Agent failed on initial interpretation" := by
  simp [run_dialectic, h]

theorem run_dialectic_of_ok (o : ℕ → Option String) (simFn : String → String → ℚ)
    (s n : String) (R : ℕ) (h : truthy (o 0) = true) :
    run_dialectic o simFn s n R =
      .ok (mkResults simFn s n R
        (if truthy (o (roundLoop o 1 R (initState o)).calls) then
          (roundLoop o 1 R (initState o)).transcript ++
            [⟨.final, .observer_synthesis,
              (o (roundLoop o 1 R (initState o)).calls).getD ""⟩]
         else (roundLoop o 1 R (initState o)).transcript)
        (roundLoop o 1 R (initState o)).observer_reports
        (o (roundLoop o 1 R (initState o)).calls)
        (o ((roundLoop o 1 R (initState o)).calls + 1))
        (o ((roundLoop o 1 R (initState o)).calls + 2))) := by
  have hne : ¬(truthy (o 0) = false) := by simp [h]
  simp only [run_dialectic, if_neg hne]
  rfl

/-- C4: If the initial Agent interpretation call fails, the seed run aborts
immediately and returns the error-tagged dictionary of line 148, whose only
key is `"error"`: it contains no transcript, no rounds, no synthesis and no
similarity data. -/
theorem C4_initial_failure_aborts (o : ℕ → Option String)
    (simFn : String → String → ℚ) (s n : String) (R : ℕ)
    (h : truthy (o 0) = false) :
    run_dialectic o simFn s n R = .error "Agent failed on initial interpretation" ∧
    (run_dialectic o simFn s n R).keys = ["error"] ∧
    (run_dialectic o simFn s n R).transcriptOf = [] := by
  rw [run_dialectic_of_fail o simFn s n R h]
  exact ⟨rfl, rfl, rfl⟩

theorem C4_initial_failure_aborts_witness :
    run_dialectic (fun _ => none) (fun _ _ => 0) "noise" "noise" 10 =
      .error "Agent failed on initial interpretation" ∧
    (run_dialectic (fun _ => none) (fun _ _ => 0) "noise" "noise" 10).keys = ["error"] ∧
    (run_dialectic (fun _ => none) (fun _ _ => 0) "noise" "noise" 10).transcriptOf = [] :=
  C4_initial_failure_aborts (fun _ => none) (fun _ _ => 0) "noise" "noise" 10 rfl

theorem run_dialectic_ok_shape (o : ℕ → Option String)
    (simFn : String → String → ℚ) (s n : String) (R : ℕ) (r : DialecticResult)
    (h : run_dialectic o simFn s n R = .ok r) :
    ∃ tr reps fs af nf, r = mkResults simFn s n R tr reps fs af nf := by
  have h0 : truthy (o 0) = true := by
    by_contra hc
    rw [Bool.not_eq_true] at hc
    rw [run_dialectic_of_fail o simFn s n R hc] at h
    cases h
  rw [run_dialectic_of_ok o simFn s n R h0] at h
  injection h with h
  exact ⟨_, _, _, _, _, h.symm⟩

/-- C1: A successful per-seed result contains the similarity block (and the
derived equidistance, and the corresponding dictionary keys) if and only if
all three of `agent_final`, `anti_final`, `final_synthesis` are non-empty;
with fewer than three, the keys are absent from the dictionary, not
zero-filled. -/
theorem C1_similarity_block_iff (o : ℕ → Option String)
    (simFn : String → String → ℚ) (s n : String) (R : ℕ) (r : DialecticResult)
    (hR : 1 ≤ R) (h : run_dialectic o simFn s n R = .ok r) :
    r.similarities.isSome =
      (truthy r.agent_final && truthy r.anti_final && truthy r.final_synthesis) ∧
    r.observer_equidistance.isSome =
      (truthy r.agent_final && truthy r.anti_final && truthy r.final_synthesis) ∧
    (("similarities" ∈ r.keys ∧ "observer_equidistance" ∈ r.keys) ↔
      (truthy r.agent_final && truthy r.anti_final && truthy r.final_synthesis) = true) := by
  obtain ⟨tr, reps, fs, af, nf, rfl⟩ := run_dialectic_ok_shape o simFn s n R r h
  have hf := mkResults_fields simFn s n R tr reps fs af nf
  have hs := mkResults_similarities simFn s n R tr reps fs af nf
  rw [hf.2.2.1, hf.2.2.2.1, hf.2.2.2.2]
  unfold DialecticResult.keys
  rw [hs.1, hs.2]
  cases hc : (truthy af && truthy nf && truthy fs) <;> simp [hc]

/-- C7: Whenever the similarity block is computed, the recorded
`observer_equidistance` is the absolute difference of the two observer-pair
similarities, and is therefore non-negative. -/
theorem C7_equidistance_abs_diff (o : ℕ → Option String)
    (simFn : String → String → ℚ) (s n : String) (R : ℕ) (r : DialecticResult)
    (sb : Similarities) (hR : 1 ≤ R)
    (h : run_dialectic o simFn s n R = .ok r) (hs : r.similarities = some sb) :
    r.observer_equidistance = some |sb.agent_observer - sb.anti_observer| ∧
    ∀ q, r.observer_equidistance = some q → 0 ≤ q := by
  obtain ⟨tr, reps, fs, af, nf, rfl⟩ := run_dialectic_ok_shape o simFn s n R r h
  have hsim := mkResults_similarities simFn s n R tr reps fs af nf
  rw [hsim.1] at hs
  rw [hsim.2]
  cases hc : (truthy af && truthy nf && truthy fs) with
  | false => rw [hc] at hs; simp at hs
  | true =>
    rw [hc] at hs
    simp only [if_pos] at hs
    injection hs with hs
    subst hs
    refine ⟨by simp, ?_⟩
    intro q hq
    simp only [if_pos, Option.some.injEq] at hq
    subst hq
    exact abs_nonneg _

theorem triples_tags (o : ℕ → Option String) :
    ∀ (rem r c : ℕ), ∀ t ∈ triples o r rem c,
      ∃ m, t.round = .num m ∧ r ≤ m ∧ m < r + rem := by
  intro rem
  induction rem with
  | zero => intro r c t ht; simp [triples] at ht
  | succ rem ih =>
    intro r c t ht
    rw [triples] at ht
    simp only [List.mem_cons, List.mem_append] at ht
    rcases ht with rfl | rfl | hif | htl
    · exact ⟨r, rfl, le_refl r, by omega⟩
    · exact ⟨r, rfl, le_refl r, by omega⟩
    · by_cases hob : truthy (o (c + 2)) = true
      · rw [if_pos hob] at hif
        simp only [List.mem_singleton] at hif
        subst hif
        exact ⟨r, rfl, le_refl r, by omega⟩
      · rw [if_neg hob] at hif
        simp at hif
    · obtain ⟨m, hm, hm1, hm2⟩ := ih (r + 1) (c + 3) t htl
      exact ⟨m, hm, by omega, by omega⟩

/-- C3: If the Challenge (Anti-Agent) call fails on round k, the round loop
stops: the transcript is exactly the initial Agent turn plus the turns
gathered through round k-1 (plus, when the synthesis succeeds, the final
synthesis entry), with no numeric round tag reaching k, and the synthesis and
the two final-position calls are still attempted afterwards (their values are
the next three oracle answers). -/
theorem C3_challenge_failure_stops_loop (o : ℕ → Option String)
    (simFn : String → String → ℚ) (s n : String) (R k : ℕ)
    (hk1 : 1 ≤ k) (hkR : k ≤ R) (h0 : truthy (o 0) = true)
    (hpre : ∀ j < k - 1, truthy (o (1 + 3 * j)) = true ∧
      truthy (o (2 + 3 * j)) = true)
    (hfail : truthy (o (1 + 3 * (k - 1))) = false) :
    ∃ r, run_dialectic o simFn s n R = .ok r ∧
      r.transcript =
        ⟨.num 0, .agent, (o 0).getD ""⟩ :: triples o 1 (k - 1) 1 ++
          (if truthy (o (2 + 3 * (k - 1))) then
            [⟨.final, .observer_synthesis, (o (2 + 3 * (k - 1))).getD ""⟩]
           else []) ∧
      r.observer_reports = reportsOf o 1 (k - 1) 1 ∧
      (∀ t ∈ r.transcript, ∀ m, t.round = .num m → m < k) ∧
      r.final_synthesis = o (2 + 3 * (k - 1)) ∧
      r.agent_final = o (2 + 3 * (k - 1) + 1) ∧
      r.anti_final = o (2 + 3 * (k - 1) + 2) := by
  have hpre' : ∀ j < k - 1, truthy (o ((initState o).calls + 3 * j)) = true ∧
      truthy (o ((initState o).calls + 3 * j + 1)) = true := by
    intro j hj
    have hp := hpre j hj
    refine ⟨hp.1, ?_⟩
    show truthy (o (1 + 3 * j + 1)) = true
    have e : 1 + 3 * j + 1 = 2 + 3 * j := by omega
    rw [e]
    exact hp.2
  have hst : roundLoop o 1 R (initState o) =
      { transcript := ⟨.num 0, .agent, (o 0).getD ""⟩ :: triples o 1 (k - 1) 1,
        observer_reports := reportsOf o 1 (k - 1) 1,
        calls := 2 + 3 * (k - 1) } := by
    have hRsplit : R = (k - 1) + ((R - k) + 1) := by omega
    calc roundLoop o 1 R (initState o)
        = roundLoop o 1 ((k - 1) + ((R - k) + 1)) (initState o) := by rw [← hRsplit]
      _ = roundLoop o (1 + (k - 1)) ((R - k) + 1)
            { transcript := (initState o).transcript ++ triples o 1 (k - 1) (initState o).calls,
              observer_reports :=
                (initState o).observer_reports ++ reportsOf o 1 (k - 1) (initState o).calls,
              calls := (initState o).calls + 3 * (k - 1) } :=
        roundLoop_ok_all o (k - 1) 1 ((R - k) + 1) (initState o) hpre'
      _ = _ := by
          rw [roundLoop_break o (1 + (k - 1)) (R - k) _ (by exact hfail)]
          simp only [initState]
          congr 1 <;> first | simp | omega
  rw [run_dialectic_of_ok o simFn s n R h0, hst]
  refine ⟨_, rfl, ?_⟩
  have hf := mkResults_fields simFn s n R
    (if truthy (o (2 + 3 * (k - 1))) then
      (⟨.num 0, .agent, (o 0).getD ""⟩ :: triples o 1 (k - 1) 1) ++
        [⟨.final, .observer_synthesis, (o (2 + 3 * (k - 1))).getD ""⟩]
     else ⟨.num 0, .agent, (o 0).getD ""⟩ :: triples o 1 (k - 1) 1)
    (reportsOf o 1 (k - 1) 1)
    (o (2 + 3 * (k - 1))) (o (2 + 3 * (k - 1) + 1)) (o (2 + 3 * (k - 1) + 2))
  refine ⟨?_, ?_, ?_, ?_, ?_, ?_⟩
  · rw [hf.1]
    by_cases hsyn : truthy (o (2 + 3 * (k - 1))) = true
    · rw [if_pos hsyn, if_pos hsyn]
    · rw [if_neg hsyn, if_neg hsyn]
      simp
  · exact hf.2.1
  · intro t ht m hm
    rw [hf.1] at ht
    have hmem : t = (⟨.num 0, .agent, (o 0).getD ""⟩ : Turn) ∨
        t ∈ triples o 1 (k - 1) 1 ∨
        t = (⟨.final, .observer_synthesis, (o (2 + 3 * (k - 1))).getD ""⟩ : Turn) := by
      by_cases hsyn : truthy (o (2 + 3 * (k - 1))) = true
      · rw [if_pos hsyn] at ht
        simp only [List.cons_append, List.mem_cons, List.mem_append,
          List.mem_singleton] at ht
        tauto
      · rw [if_neg hsyn] at ht
        simp only [List.mem_cons] at ht
        tauto
    rcases hmem with rfl | htr | rfl
    · simp at hm
      omega
    · obtain ⟨m', hm', _, hlt⟩ := triples_tags o (k - 1) 1 1 t htr
      rw [hm] at hm'
      injection hm' with hm'
      omega
    · simp at hm
  · exact hf.2.2.1
  · exact hf.2.2.2.1
  · exact hf.2.2.2.2

/-- C8: With 2 configured rounds and every completion call returning non-empty
text, the transcript has exactly 8 entries: the initial Agent turn, two
rounds of anti_agent/agent/observer triples, and the final synthesis entry. -/
theorem C8_two_rounds_eight_entries (o : ℕ → Option String)
    (simFn : String → String → ℚ) (s n : String)
    (h : ∀ i, truthy (o i) = true) :
    (run_dialectic o simFn s n 2).isError = false ∧
    (run_dialectic o simFn s n 2).transcriptOf.length = 8 ∧
    (run_dialectic o simFn s n 2).transcriptOf.map (fun t => (t.round, t.role)) =
      [(.num 0, .agent), (.num 1, .anti_agent), (.num 1, .agent),
       (.num 1, .observer), (.num 2, .anti_agent), (.num 2, .agent),
       (.num 2, .observer), (.final, .observer_synthesis)] := by
  have hst : roundLoop o 1 2 (initState o) =
      { transcript := [⟨.num 0, .agent, (o 0).getD ""⟩,
          ⟨.num 1, .anti_agent, (o 1).getD ""⟩, ⟨.num 1, .agent, (o 2).getD ""⟩,
          ⟨.num 1, .observer, (o 3).getD ""⟩,
          ⟨.num 2, .anti_agent, (o 4).getD ""⟩, ⟨.num 2, .agent, (o 5).getD ""⟩,
          ⟨.num 2, .observer, (o 6).getD ""⟩],
        observer_reports := [(1, (o 3).getD ""), (2, (o 6).getD "")],
        calls := 7 } :=
    calc roundLoop o 1 2 (initState o)
        = roundLoop o (1 + 2) 0
            { transcript := (initState o).transcript ++ triples o 1 2 (initState o).calls,
              observer_reports :=
                (initState o).observer_reports ++ reportsOf o 1 2 (initState o).calls,
              calls := (initState o).calls + 3 * 2 } :=
          roundLoop_ok_all o 2 1 0 (initState o) (fun j _ => ⟨h _, h _⟩)
      _ = _ := by
          simp [roundLoop, initState, triples, reportsOf, h 3, h 6]
  have htr : (run_dialectic o simFn s n 2).transcriptOf =
      [⟨.num 0, .agent, (o 0).getD ""⟩,
       ⟨.num 1, .anti_agent, (o 1).getD ""⟩, ⟨.num 1, .agent, (o 2).getD ""⟩,
       ⟨.num 1, .observer, (o 3).getD ""⟩,
       ⟨.num 2, .anti_agent, (o 4).getD ""⟩, ⟨.num 2, .agent, (o 5).getD ""⟩,
       ⟨.num 2, .observer, (o 6).getD ""⟩,
       ⟨.final, .observer_synthesis, (o 7).getD ""⟩] := by
    rw [run_dialectic_of_ok o simFn s n 2 (h 0), hst]
    dsimp only [RunResult.transcriptOf]
    rw [(mkResults_fields simFn s n 2 _ _ _ _ _).1]
    rw [if_pos (h 7)]
    rfl
  refine ⟨?_, ?_, ?_⟩
  · rw [run_dialectic_of_ok o simFn s n 2 (h 0)]
    rfl
  · rw [htr]
    rfl
  · rw [htr]
    rfl

theorem tagLE_final (a : RoundTag) : tagLE a .final = true := by
  cases a <;> rfl

theorem truthy_getD_ne (x : Option String) (h : truthy x = true) :
    x.getD "" ≠ "" := by
  cases x with
  | none => simp [truthy] at h
  | some s => simpa [truthy] using h

theorem mem_of_getLast? {α : Type} {l : List α} {a : α} (h : a ∈ l.getLast?) :
    a ∈ l := by
  obtain ⟨hne, rfl⟩ := List.mem_getLast?_eq_getLast h
  exact List.getLast_mem hne

theorem LoopInv.mono {st : LoopState} {r r' : ℕ} (h : LoopInv st r)
    (hr : r ≤ r') : LoopInv st r' := by
  obtain ⟨h1, h2, h3⟩ := h
  refine ⟨?_, h2, h3⟩
  intro t ht
  obtain ⟨⟨m, hm, hmr⟩, h4, h5⟩ := h1 t ht
  exact ⟨⟨m, hm, by omega⟩, h4, h5⟩

theorem turns_snoc (l : List Turn) (b : ℕ) (x : Turn) (m : ℕ)
    (hall : ∀ t ∈ l, ∃ m2, t.round = RoundTag.num m2 ∧ m2 < b)
    (hchain : List.Chain' (fun a c => tagLE a c = true) (l.map Turn.round))
    (hx : x.round = RoundTag.num m) (hbm : b ≤ m + 1) :
    (∀ t ∈ l ++ [x], ∃ m2, t.round = RoundTag.num m2 ∧ m2 < m + 1) ∧
    List.Chain' (fun a c => tagLE a c = true) ((l ++ [x]).map Turn.round) := by
  constructor
  · intro t ht
    rcases List.mem_append.mp ht with htl | hts
    · obtain ⟨m2, e, lt⟩ := hall t htl
      exact ⟨m2, e, by omega⟩
    · rw [List.mem_singleton] at hts
      subst hts
      exact ⟨m, hx, by omega⟩
  · rw [List.map_append]
    apply List.chain'_append.mpr
    refine ⟨hchain, by simp, ?_⟩
    intro a ha c hc
    simp only [List.map_cons, List.map_nil, List.head?_cons, Option.mem_def,
      Option.some.injEq] at hc
    subst hc
    obtain ⟨t, ht, rfl⟩ := List.mem_map.mp (mem_of_getLast? ha)
    obtain ⟨m2, e, lt⟩ := hall t ht
    rw [e, hx]
    simp only [tagLE]
    exact decide_eq_true (by omega)

theorem roundLoop_succ_cases (o : ℕ → Option String) (r rem : ℕ) (st : LoopState) :
    (truthy (o st.calls) = false ∧
      roundLoop o r (rem + 1) st = { st with calls := st.calls + 1 }) ∨
    (truthy (o st.calls) = true ∧ truthy (o (st.calls + 1)) = false ∧
      roundLoop o r (rem + 1) st =
        { st with
          transcript := st.transcript ++ [⟨.num r, .anti_agent, (o st.calls).getD ""⟩],
          calls := st.calls + 2 }) ∨
    (truthy (o st.calls) = true ∧ truthy (o (st.calls + 1)) = true ∧
      roundLoop o r (rem + 1) st =
        roundLoop o (r + 1) rem
          { st with
            transcript := ((st.transcript ++
              [⟨.num r, .anti_agent, (o st.calls).getD ""⟩]) ++
              [⟨.num r, .agent, (o (st.calls + 1)).getD ""⟩]) ++
              (if truthy (o (st.calls + 2)) then
                [⟨.num r, .observer, (o (st.calls + 2)).getD ""⟩] else []),
            observer_reports := st.observer_reports ++
              (if truthy (o (st.calls + 2)) then
                [(r, (o (st.calls + 2)).getD "")] else []),
            calls := st.calls + 3 }) := by
  by_cases h1 : truthy (o st.calls) = true
  · by_cases h2 : truthy (o (st.calls + 1)) = true
    · refine Or.inr (Or.inr ⟨h1, h2, ?_⟩)
      by_cases h3 : truthy (o (st.calls + 2)) = true
      · have h3' : truthy (o (st.calls + 1 + 1)) = true := h3
        simp [roundLoop, h1, h2, h3, h3', List.append_assoc]
      · rw [Bool.not_eq_true] at h3
        have h3' : truthy (o (st.calls + 1 + 1)) = false := h3
        simp [roundLoop, h1, h2, h3, h3', List.append_assoc]
    · rw [Bool.not_eq_true] at h2
      refine Or.inr (Or.inl ⟨h1, h2, ?_⟩)
      simp [roundLoop, h1, h2]
  · rw [Bool.not_eq_true] at h1
    exact Or.inl ⟨h1, roundLoop_break o r rem st h1⟩


theorem roundLoop_inv_prefix (o : ℕ → Option String) :
    ∀ (rem r : ℕ) (st : LoopState), LoopInv st r →
      LoopInv (roundLoop o r rem st) (r + rem) ∧
      ∃ l, (roundLoop o r rem st).transcript = st.transcript ++ l := by
  intro rem
  induction rem with
  | zero =>
    intro r st h
    exact ⟨h, ⟨[], by simp [roundLoop]⟩⟩
  | succ rem ih =>
    intro r st h
    obtain ⟨hall, hreps, hchain⟩ := h
    have hallw : ∀ t ∈ st.transcript, ∃ m2, t.round = RoundTag.num m2 ∧ m2 < r :=
      fun t ht => (hall t ht).1
    rcases roundLoop_succ_cases o r rem st with ⟨h1, heq⟩ | ⟨h1, h2, heq⟩ |
      ⟨h1, h2, heq⟩
    · rw [heq]
      exact ⟨LoopInv.mono ⟨hall, hreps, hchain⟩ (by omega), ⟨[], by simp⟩⟩
    · rw [heq]
      have hs := turns_snoc st.transcript r
        ⟨.num r, .anti_agent, (o st.calls).getD ""⟩ r hallw hchain rfl (by omega)
      refine ⟨⟨?_, hreps, hs.2⟩, ⟨_, rfl⟩⟩
      intro t ht
      rcases List.mem_append.mp ht with htl | hts
      · obtain ⟨⟨m, hm, hmr⟩, hx1, hx2⟩ := hall t htl
        exact ⟨⟨m, hm, by omega⟩, hx1, hx2⟩
      · rw [List.mem_singleton] at hts
        subst hts
        exact ⟨⟨r, rfl, by omega⟩, truthy_getD_ne _ h1, by simp⟩
    · rw [heq]
      have hs1 := turns_snoc st.transcript r
        ⟨.num r, .anti_agent, (o st.calls).getD ""⟩ r hallw hchain rfl (by omega)
      have hs2 := turns_snoc
        (st.transcript ++ [⟨.num r, .anti_agent, (o st.calls).getD ""⟩]) (r + 1)
        ⟨.num r, .agent, (o (st.calls + 1)).getD ""⟩ r hs1.1 hs1.2 rfl (by omega)
      have hBig : LoopInv
          { st with
            transcript := ((st.transcript ++
              [⟨.num r, .anti_agent, (o st.calls).getD ""⟩]) ++
              [⟨.num r, .agent, (o (st.calls + 1)).getD ""⟩]) ++
              (if truthy (o (st.calls + 2)) then
                [⟨.num r, .observer, (o (st.calls + 2)).getD ""⟩] else []),
            observer_reports := st.observer_reports ++
              (if truthy (o (st.calls + 2)) then
                [(r, (o (st.calls + 2)).getD "")] else []),
            calls := st.calls + 3 } (r + 1) := by
        by_cases h3 : truthy (o (st.calls + 2)) = true
        · have hs3 := turns_snoc
            ((st.transcript ++ [⟨.num r, .anti_agent, (o st.calls).getD ""⟩]) ++
              [⟨.num r, .agent, (o (st.calls + 1)).getD ""⟩]) (r + 1)
            ⟨.num r, .observer, (o (st.calls + 2)).getD ""⟩ r hs2.1 hs2.2 rfl
            (by omega)
          refine ⟨?_, ?_, ?_⟩
          · intro t ht
            simp only [if_pos h3, List.mem_append, List.mem_singleton] at ht
            rcases ht with ((htl | rfl) | rfl) | rfl
            · obtain ⟨⟨m, hm, hmr⟩, hx1, hx2⟩ := hall t htl
              exact ⟨⟨m, hm, by omega⟩, hx1, hx2⟩
            · exact ⟨⟨r, rfl, by omega⟩, truthy_getD_ne _ h1, by simp⟩
            · exact ⟨⟨r, rfl, by omega⟩, truthy_getD_ne _ h2, by simp⟩
            · exact ⟨⟨r, rfl, by omega⟩, truthy_getD_ne _ h3, by simp⟩
          · intro p hp
            simp only [if_pos h3, List.mem_append, List.mem_singleton] at hp
            rcases hp with hpl | rfl
            · exact hreps p hpl
            · exact truthy_getD_ne _ h3
          · simp only [if_pos h3]
            exact hs3.2
        · rw [Bool.not_eq_true] at h3
          refine ⟨?_, ?_, ?_⟩
          · intro t ht
            simp only [h3, Bool.false_eq_true, if_false, List.append_nil,
              List.mem_append, List.mem_singleton] at ht
            rcases ht with (htl | rfl) | rfl
            · obtain ⟨⟨m, hm, hmr⟩, hx1, hx2⟩ := hall t htl
              exact ⟨⟨m, hm, by omega⟩, hx1, hx2⟩
            · exact ⟨⟨r, rfl, by omega⟩, truthy_getD_ne _ h1, by simp⟩
            · exact ⟨⟨r, rfl, by omega⟩, truthy_getD_ne _ h2, by simp⟩
          · intro p hp
            simp only [h3, Bool.false_eq_true, if_false, List.append_nil] at hp
            exact hreps p hp
          · simp only [h3, Bool.false_eq_true, if_false, List.append_nil]
            exact hs2.2
      obtain ⟨hinv2, l2, hpre2⟩ := ih (r + 1) _ hBig
      refine ⟨LoopInv.mono hinv2 (by omega), ?_⟩
      refine ⟨[⟨.num r, .anti_agent, (o st.calls).getD ""⟩] ++
        [⟨.num r, .agent, (o (st.calls + 1)).getD ""⟩] ++
        (if truthy (o (st.calls + 2)) then
          [⟨.num r, .observer, (o (st.calls + 2)).getD ""⟩] else []) ++ l2, ?_⟩
      rw [hpre2]
      simp [List.append_assoc]

theorem run_dialectic_ok_truthy0 (o : ℕ → Option String)
    (simFn : String → String → ℚ) (s n : String) (R : ℕ) (r : DialecticResult)
    (h : run_dialectic o simFn s n R = .ok r) : truthy (o 0) = true := by
  by_contra hc
  rw [Bool.not_eq_true] at hc
  rw [run_dialectic_of_fail o simFn s n R hc] at h
  cases h

theorem run_dialectic_state_inv (o : ℕ → Option String)
    (h0 : truthy (o 0) = true) (R : ℕ) :
    LoopInv (roundLoop o 1 R (initState o)) (1 + R) ∧
    ∃ l, (roundLoop o 1 R (initState o)).transcript =
      ⟨.num 0, .agent, (o 0).getD ""⟩ :: l := by
  have hInv0 : LoopInv (initState o) 1 := by
    refine ⟨?_, by simp [initState], by simp [initState]⟩
    intro t ht
    simp only [initState, List.mem_singleton] at ht
    subst ht
    exact ⟨⟨0, rfl, by omega⟩, truthy_getD_ne _ h0, by simp⟩
  obtain ⟨hinv, l, hpre⟩ := roundLoop_inv_prefix o R 1 (initState o) hInv0
  refine ⟨hinv, l, ?_⟩
  rw [hpre]
  rfl

/-- C9 (amended): every recorded turn carries a round tag; along the
transcript the tags are non-decreasing (with the `"final"` tag greatest), the
first turn is the initial Agent turn tagged 0 (not 1), each numeric tag is at
most the configured round count, and the `"final"` tag appears only on the
synthesis turn. -/
theorem C9_amended_round_tags (o : ℕ → Option String)
    (simFn : String → String → ℚ) (s n : String) (R : ℕ) (r : DialecticResult)
    (hR : 1 ≤ R) (h : run_dialectic o simFn s n R = .ok r) :
    List.Chain' (fun a b => tagLE a b = true) (r.transcript.map Turn.round) ∧
    (∀ t ∈ r.transcript, ∀ m, t.round = .num m → m ≤ R) ∧
    (r.transcript.map Turn.round).head? = some (.num 0) ∧
    (∀ t ∈ r.transcript, t.round = .final → t.role = .observer_synthesis) := by
  have h0 := run_dialectic_ok_truthy0 o simFn s n R r h
  rw [run_dialectic_of_ok o simFn s n R h0] at h
  injection h with h
  subst h
  obtain ⟨⟨hall, hreps, hchain⟩, l, hpre⟩ := run_dialectic_state_inv o h0 R
  rw [(mkResults_fields simFn s n R _ _ _ _ _).1]
  by_cases hsyn : truthy (o (roundLoop o 1 R (initState o)).calls) = true
  · rw [if_pos hsyn]
    refine ⟨?_, ?_, ?_, ?_⟩
    · rw [List.map_append]
      apply List.chain'_append.mpr
      refine ⟨hchain, by simp, ?_⟩
      intro a _ c hc
      simp only [List.map_cons, List.map_nil, List.head?_cons, Option.mem_def,
        Option.some.injEq] at hc
      subst hc
      exact tagLE_final a
    · intro t ht m hm
      rcases List.mem_append.mp ht with htl | hts
      · obtain ⟨⟨m2, hm2, hlt⟩, _, _⟩ := hall t htl
        rw [hm] at hm2
        injection hm2 with hm2
        omega
      · rw [List.mem_singleton] at hts
        subst hts
        cases hm
    · rw [hpre]
      rfl
    · intro t ht htag
      rcases List.mem_append.mp ht with htl | hts
      · obtain ⟨⟨m2, hm2, _⟩, _, _⟩ := hall t htl
        rw [htag] at hm2
        cases hm2
      · rw [List.mem_singleton] at hts
        subst hts
        rfl
  · rw [if_neg hsyn]
    refine ⟨hchain, ?_, ?_, ?_⟩
    · intro t ht m hm
      obtain ⟨⟨m2, hm2, hlt⟩, _, _⟩ := hall t ht
      rw [hm] at hm2
      injection hm2 with hm2
      omega
    · rw [hpre]
      rfl
    · intro t ht htag
      obtain ⟨⟨m2, hm2, _⟩, _, _⟩ := hall t ht
      rw [htag] at hm2
      cases hm2

/-- C9 counterexample: with every call succeeding and one configured round,
the transcript's round tags are 0, 1, 1, 1, "final" — the initial turn's tag 0
(and the synthesis tag "final") are not round indices between 1 and R. -/
theorem C9_counterexample_round_zero :
    ((run_dialectic (fun _ => some "x") (fun _ _ => 0) "noise" "noise"
        1).transcriptOf.map Turn.round) =
      [.num 0, .num 1, .num 1, .num 1, .final] ∧
    (run_dialectic (fun _ => some "x") (fun _ _ => 0) "noise" "noise"
        1).transcriptOf.all (roundIndexInRange 1) = false := by
  decide

/-- C5 (amended): failure of an Observer per-round report, of the synthesis
call, or of either final-position call is non-fatal — the seed run still
returns a normal result whenever the initial call succeeded.  A failed
observer report is omitted from the report list and the transcript, and a
failed synthesis adds no synthesis turn (every recorded text is non-empty).
But the `final_synthesis`, `agent_final` and `anti_final` keys are always
present in the result dictionary, holding null when the call failed — they
are not omitted. -/
theorem C5_amended_nonfatal (o : ℕ → Option String)
    (simFn : String → String → ℚ) (s n : String) (R : ℕ) (hR : 1 ≤ R)
    (h0 : truthy (o 0) = true) :
    ∃ r, run_dialectic o simFn s n R = .ok r ∧
      "final_synthesis" ∈ r.keys ∧ "agent_final" ∈ r.keys ∧
      "anti_final" ∈ r.keys ∧
      (truthy r.final_synthesis = false →
        ∀ t ∈ r.transcript, t.role ≠ .observer_synthesis) ∧
      (∀ t ∈ r.transcript, t.text ≠ "") ∧
      (∀ p ∈ r.observer_reports, p.2 ≠ "") := by
  rw [run_dialectic_of_ok o simFn s n R h0]
  refine ⟨_, rfl, ?_, ?_, ?_, ?_, ?_, ?_⟩
  · unfold DialecticResult.keys
    exact List.mem_append.mpr (Or.inl (List.mem_append.mpr (Or.inl (by decide))))
  · unfold DialecticResult.keys
    exact List.mem_append.mpr (Or.inl (List.mem_append.mpr (Or.inl (by decide))))
  · unfold DialecticResult.keys
    exact List.mem_append.mpr (Or.inl (List.mem_append.mpr (Or.inl (by decide))))
  · intro hfs t ht hrole
    rw [(mkResults_fields simFn s n R _ _ _ _ _).2.2.1] at hfs
    rw [(mkResults_fields simFn s n R _ _ _ _ _).1] at ht
    rw [if_neg (by simp [hfs])] at ht
    obtain ⟨⟨hall, _, _⟩, l, hpre⟩ := run_dialectic_state_inv o h0 R
    obtain ⟨_, _, hsynth⟩ := hall t ht
    exact hsynth hrole
  · intro t ht
    rw [(mkResults_fields simFn s n R _ _ _ _ _).1] at ht
    obtain ⟨⟨hall, _, _⟩, l, hpre⟩ := run_dialectic_state_inv o h0 R
    by_cases hsyn : truthy (o (roundLoop o 1 R (initState o)).calls) = true
    · rw [if_pos hsyn] at ht
      rcases List.mem_append.mp ht with htl | hts
      · exact (hall t htl).2.1
      · rw [List.mem_singleton] at hts
        subst hts
        exact truthy_getD_ne _ hsyn
    · rw [if_neg hsyn] at ht
      exact (hall t ht).2.1
  · intro p hp
    rw [(mkResults_fields simFn s n R _ _ _ _ _).2.1] at hp
    obtain ⟨⟨_, hreps, _⟩, _⟩ := run_dialectic_state_inv o h0 R
    exact hreps p hp

/-- C5 counterexample: one round, every call succeeding except the synthesis
call.  The run still succeeds, but the result dictionary nonetheless has a
`final_synthesis` key — present with value null — contradicting the claim
that the field is entirely absent rather than present with a null value. -/
theorem C5_counterexample_null_field :
    (run_dialectic (fun i => if i == 4 then none else some "t") (fun _ _ => 0)
        "noise" "noise" 1).isError = false ∧
    "final_synthesis" ∈ (run_dialectic (fun i => if i == 4 then none else some "t")
        (fun _ _ => 0) "noise" "noise" 1).keys ∧
    (run_dialectic (fun i => if i == 4 then none else some "t") (fun _ _ => 0)
        "noise" "noise" 1).finalSynthesisOf = none := by
  decide

theorem truthy_normalizeFalsy (x : Option String) :
    truthy (normalizeFalsy x) = truthy x := by
  by_cases h : truthy x = true
  · simp [normalizeFalsy, h]
  · rw [Bool.not_eq_true] at h
    unfold normalizeFalsy
    rw [h]
    simp [truthy, h]

theorem normalizeFalsy_getD (x : Option String) :
    (normalizeFalsy x).getD "" = x.getD "" := by
  cases x with
  | none => rfl
  | some s =>
    by_cases h : s = ""
    · subst h
      rfl
    · simp [normalizeFalsy, truthy, h]

theorem roundLoop_normalize (o : ℕ → Option String) :
    ∀ (rem r : ℕ) (st : LoopState),
      roundLoop (fun i => normalizeFalsy (o i)) r rem st = roundLoop o r rem st := by
  intro rem
  induction rem with
  | zero => intro r st; rfl
  | succ rem ih =>
    intro r st
    rw [roundLoop, roundLoop]
    simp only [truthy_normalizeFalsy, normalizeFalsy_getD, ih]

theorem observable_ok_mkResults_normalize (simFn : String → String → ℚ)
    (s n : String) (R : ℕ) (T : List Turn) (P : List (ℕ × String))
    (X Y Z : Option String) :
    RunResult.observable (.ok (mkResults simFn s n R T P (normalizeFalsy X)
      (normalizeFalsy Y) (normalizeFalsy Z))) =
    RunResult.observable (.ok (mkResults simFn s n R T P X Y Z)) := by
  have hfN := mkResults_fields simFn s n R T P (normalizeFalsy X)
    (normalizeFalsy Y) (normalizeFalsy Z)
  have hfO := mkResults_fields simFn s n R T P X Y Z
  have hsN := mkResults_similarities simFn s n R T P (normalizeFalsy X)
    (normalizeFalsy Y) (normalizeFalsy Z)
  have hsO := mkResults_similarities simFn s n R T P X Y Z
  unfold RunResult.observable
  simp only [Option.some.injEq, Prod.mk.injEq]
  refine ⟨?_, ?_, ?_, ?_, ?_⟩
  · rw [hfN.1, hfO.1]
  · rw [hfN.2.1, hfO.2.1]
  · rw [hsN.1, hsO.1]
    simp [truthy_normalizeFalsy, normalizeFalsy_getD]
  · rw [hsN.2, hsO.2]
    simp [truthy_normalizeFalsy, normalizeFalsy_getD]
  · unfold DialecticResult.keys
    rw [hsN.1, hsO.1, hsN.2, hsO.2]
    simp [truthy_normalizeFalsy]

/-- C10: A completion response that trims to the empty string is treated at
every call site exactly like an exhausted-retry failure: replacing every
falsy call result (empty string or None) by None changes nothing observable
about the run (error status, transcript, reports, similarity block,
equidistance, key set); in particular an empty initial interpretation makes
the seed run return the error result. -/
theorem C10_empty_like_failure (o : ℕ → Option String)
    (simFn : String → String → ℚ) (s n : String) (R : ℕ) (hR : 1 ≤ R) :
    (run_dialectic (fun i => normalizeFalsy (o i)) simFn s n R).observable =
      (run_dialectic o simFn s n R).observable ∧
    (o 0 = some "" →
      run_dialectic o simFn s n R =
        .error "Agent failed on initial interpretation") := by
  constructor
  · by_cases h0 : truthy (o 0) = true
    · have h0' : truthy (normalizeFalsy (o 0)) = true := by
        rw [truthy_normalizeFalsy]
        exact h0
      rw [run_dialectic_of_ok (fun i => normalizeFalsy (o i)) simFn s n R h0',
        run_dialectic_of_ok o simFn s n R h0]
      have hinit : initState (fun i => normalizeFalsy (o i)) = initState o := by
        simp [initState, normalizeFalsy_getD]
      rw [hinit, roundLoop_normalize o]
      rw [truthy_normalizeFalsy, normalizeFalsy_getD]
      exact observable_ok_mkResults_normalize simFn s n R _ _ _ _ _
    · rw [Bool.not_eq_true] at h0
      have h0' : truthy (normalizeFalsy (o 0)) = false := by
        rw [truthy_normalizeFalsy]
        exact h0
      rw [run_dialectic_of_fail (fun i => normalizeFalsy (o i)) simFn s n R h0',
        run_dialectic_of_fail o simFn s n R h0]
  · intro he
    apply run_dialectic_of_fail
    rw [he]
    rfl

theorem callOpusGo_fail_step (attempts : ℕ → AttemptOutcome)
    (retries a fuel : ℕ) (h : (attempts a).isFailure = true) :
    callOpusGo attempts retries a (fuel + 1) =
      ((callOpusGo attempts retries (a + 1) fuel).1,
        attemptSleep (attempts a) a retries ++
          (callOpusGo attempts retries (a + 1) fuel).2) := by
  cases hc : attempts a with
  | success s =>
    rw [hc] at h
    simp [AttemptOutcome.isFailure] at h
  | httpError => simp [callOpusGo, hc, attemptSleep]
  | otherError => simp [callOpusGo, hc, attemptSleep]

theorem callOpusGo_failPrefix (attempts : ℕ → AttemptOutcome) (retries : ℕ) :
    ∀ (k a fuel : ℕ), k ≤ fuel →
      (∀ i < k, (attempts (a + i)).isFailure = true) →
      callOpusGo attempts retries a fuel =
        ((callOpusGo attempts retries (a + k) (fuel - k)).1,
          prefixSleeps attempts retries a k ++
            (callOpusGo attempts retries (a + k) (fuel - k)).2) := by
  intro k
  induction k with
  | zero =>
    intro a fuel _ _
    simp [prefixSleeps]
  | succ k ih =>
    intro a fuel hk h
    obtain ⟨fuel', rfl⟩ : ∃ f, fuel = f + 1 := ⟨fuel - 1, by omega⟩
    have h0 : (attempts a).isFailure = true := by
      have := h 0 (by omega)
      rwa [Nat.add_zero] at this
    rw [callOpusGo_fail_step attempts retries a fuel' h0]
    rw [ih (a + 1) fuel' (by omega) (fun i hi => by
      have := h (i + 1) (by omega)
      have e : a + (i + 1) = a + 1 + i := by omega
      rwa [e] at this)]
    rw [prefixSleeps]
    have e2 : a + 1 + k = a + (k + 1) := by omega
    have e3 : fuel' + 1 - (k + 1) = fuel' - k := by omega
    rw [e2, e3, List.append_assoc]

theorem prefixSleeps_length (attempts : ℕ → AttemptOutcome) (retries : ℕ) :
    ∀ (k a : ℕ), (∀ i < k, (attempts (a + i)).isFailure = true) →
      a + k ≤ retries - 1 → (prefixSleeps attempts retries a k).length = k := by
  intro k
  induction k with
  | zero => intro a _ _; rfl
  | succ k ih =>
    intro a h hb
    rw [prefixSleeps, List.length_append]
    have h0 : (attempts a).isFailure = true := by
      have := h 0 (by omega)
      rwa [Nat.add_zero] at this
    have hlen : (attemptSleep (attempts a) a retries).length = 1 := by
      cases hc : attempts a with
      | success s => rw [hc] at h0; simp [AttemptOutcome.isFailure] at h0
      | httpError => simp [attemptSleep, if_pos (show a < retries - 1 by omega)]
      | otherError => simp [attemptSleep, if_pos (show a < retries - 1 by omega)]
    rw [hlen, ih (a + 1) (fun i hi => by
      have := h (i + 1) (by omega)
      have e : a + (i + 1) = a + 1 + i := by omega
      rwa [e] at this) (by omega)]
    omega

theorem prefixSleeps_le (attempts : ℕ → AttemptOutcome) (retries : ℕ) :
    ∀ (k a : ℕ), ∀ d ∈ prefixSleeps attempts retries a k, d ≤ 120 := by
  intro k
  induction k with
  | zero => intro a d hd; simp [prefixSleeps] at hd
  | succ k ih =>
    intro a d hd
    rw [prefixSleeps] at hd
    rcases List.mem_append.mp hd with h1 | h2
    · cases hc : attempts a with
      | success s => rw [hc] at h1; simp [attemptSleep] at h1
      | httpError =>
        rw [hc] at h1
        simp only [attemptSleep] at h1
        split at h1
        · rw [List.mem_singleton] at h1
          subst h1
          exact min_le_right _ _
        · simp at h1
      | otherError =>
        rw [hc] at h1
        simp only [attemptSleep] at h1
        split at h1
        · rw [List.mem_singleton] at h1
          subst h1
          omega
        · simp at h1
    · exact ih (a + 1) d h2

theorem prefixSleeps_http (attempts : ℕ → AttemptOutcome) (retries : ℕ) :
    ∀ (k a : ℕ), (∀ i < k, attempts (a + i) = .httpError) →
      a + k ≤ retries - 1 →
      prefixSleeps attempts retries a k =
        (List.range k).map (fun i => min (10 * 2 ^ (a + i)) 120) := by
  intro k
  induction k with
  | zero => intro a _ _; rfl
  | succ k ih =>
    intro a h hb
    have h0 : attempts a = .httpError := by
      have := h 0 (by omega)
      rwa [Nat.add_zero] at this
    rw [prefixSleeps, h0]
    simp only [attemptSleep, if_pos (show a < retries - 1 by omega)]
    rw [ih (a + 1) (fun i hi => by
      have := h (i + 1) (by omega)
      have e : a + (i + 1) = a + 1 + i := by omega
      rwa [e] at this) (by omega)]
    rw [List.range_succ_eq_map]
    simp only [List.map_cons, List.map_map, List.singleton_append, Nat.add_zero]
    congr 1
    apply List.map_congr_left
    intro i _
    simp only [Function.comp_apply]
    have e : a + 1 + i = a + (i + 1) := by omega
    rw [e]

/-- C2 (amended): for every N up to the 6-attempt maximum, if the first N-1
attempts fail and attempt N succeeds, `call_opus` returns the trimmed text of
the response and performs exactly N-1 backoff sleeps, each capped at 120
seconds; when all the failures are HTTP errors the sleep durations are
`min(10 * 2 ** i, 120)` and non-decreasing.  (A generic transport failure
sleeps a flat 10 seconds, so a mixed failure sequence need not be
non-decreasing.)  If all 6 attempts fail, the client returns None. -/
theorem C2_amended_retry (attempts : ℕ → AttemptOutcome) :
    (∀ (N : ℕ) (s : String), 1 ≤ N → N ≤ 6 →
      (∀ i < N - 1, (attempts i).isFailure = true) →
      attempts (N - 1) = .success s →
      (call_opus attempts 6).1 = some s.trim ∧
      (call_opus attempts 6).2.length = N - 1 ∧
      (∀ d ∈ (call_opus attempts 6).2, d ≤ 120) ∧
      ((∀ i < N - 1, attempts i = .httpError) →
        (call_opus attempts 6).2 =
          (List.range (N - 1)).map (fun i => min (10 * 2 ^ i) 120) ∧
        List.Chain' (· ≤ ·) (call_opus attempts 6).2)) ∧
    ((∀ i < 6, (attempts i).isFailure = true) →
      (call_opus attempts 6).1 = none) := by
  constructor
  · intro N s hN1 hN6 hfail hsucc
    have hsplit := callOpusGo_failPrefix attempts 6 (N - 1) 0 6 (by omega)
      (fun i hi => by rw [Nat.zero_add]; exact hfail i hi)
    rw [Nat.zero_add] at hsplit
    obtain ⟨f, hf⟩ : ∃ f, 6 - (N - 1) = f + 1 := ⟨6 - N, by omega⟩
    rw [hf] at hsplit
    have hstep : callOpusGo attempts 6 (N - 1) (f + 1) = (some s.trim, []) := by
      simp [callOpusGo, hsucc]
    rw [hstep] at hsplit
    simp only [List.append_nil] at hsplit
    have hres : call_opus attempts 6 = (some s.trim, prefixSleeps attempts 6 0 (N - 1)) := by
      unfold call_opus
      rw [hsplit]
    rw [hres]
    dsimp only
    refine ⟨rfl, ?_, ?_, ?_⟩
    · exact prefixSleeps_length attempts 6 (N - 1) 0
        (fun i hi => by rw [Nat.zero_add]; exact hfail i hi) (by omega)
    · intro d hd
      exact prefixSleeps_le attempts 6 (N - 1) 0 d hd
    · intro hhttp
      have hform := prefixSleeps_http attempts 6 (N - 1) 0
        (fun i hi => by rw [Nat.zero_add]; exact hhttp i hi) (by omega)
      simp only [Nat.zero_add] at hform
      refine ⟨hform, ?_⟩
      rw [hform]
      have hb : N - 1 ≤ 5 := by omega
      set m := N - 1 with hm
      interval_cases m <;>
        norm_num [List.range_succ, List.chain'_cons, List.chain'_singleton]
  · intro hfail
    have hsplit := callOpusGo_failPrefix attempts 6 6 0 6 (le_refl 6)
      (fun i hi => by rw [Nat.zero_add]; exact hfail i hi)
    unfold call_opus
    rw [hsplit]
    rfl

/-- C2 counterexample: two HTTP errors, then a generic transport failure,
then success on attempt 4.  The three backoff sleeps are 10, 20, 10 seconds —
not non-decreasing, contradicting the claim that the backoff durations are
always non-decreasing across any N-1 failures. -/
theorem C2_counterexample_mixed_failures :
    (call_opus (fun i => if i < 2 then .httpError
      else if i == 2 then .otherError else .success "ok") 6).2 = [10, 20, 10] ∧
    ¬ List.Chain' (· ≤ ·)
      (call_opus (fun i => if i < 2 then .httpError
        else if i == 2 then .otherError else .success "ok") 6).2 := by
  have h2 : (call_opus (fun i => if i < 2 then .httpError
      else if i == 2 then .otherError else .success "ok") 6).2 = [10, 20, 10] := by
    decide
  refine ⟨h2, ?_⟩
  rw [h2]
  simp [List.chain'_cons]

/-- C6 (amended): the cross-seed summary produces a verdict row exactly for
the seeds with similarity data (AGENT when agent_observer > anti_observer,
SKEPTIC when the reverse holds, NOVEL on a tie), but an equidistance label
for every seed — seeds without similarity data default to 999 and are
labelled SIDED; labels are NOVEL below 0.1, LEANS below 0.2, else SIDED, and
on the claim's examples 0.81 vs 0.40 gives verdict AGENT with equidistance
0.41 labelled SIDED, while 0.55 vs 0.50 gives equidistance 0.05 labelled
NOVEL. -/
theorem C6_amended_summary_labels :
    (∀ (name : String) (r : DialecticResult) (sb : Similarities),
      r.similarities = some sb →
      seedVerdictRow name (.ok r) =
        some (name, if sb.agent_observer > sb.anti_observer then "AGENT"
          else if sb.anti_observer > sb.agent_observer then "SKEPTIC"
          else "NOVEL")) ∧
    (∀ (name : String) (res : RunResult), res.simsOf = none →
      seedVerdictRow name res = none) ∧
    (∀ all : List (String × RunResult), (eqRows all).length = all.length) ∧
    (∀ (name msg : String),
      seedEqRow name (.error msg) = (name, 999, "SIDED")) ∧
    winnerLabel 0.81 0.40 = "AGENT" ∧
    |(0.81 : ℚ) - 0.40| = 0.41 ∧ eqLabel 0.41 = "SIDED" ∧
    |(0.55 : ℚ) - 0.50| = 0.05 ∧ eqLabel 0.05 = "NOVEL" := by
  refine ⟨?_, ?_, ?_, ?_, ?_, ?_, ?_, ?_, ?_⟩
  · intro name r sb hs
    simp [seedVerdictRow, RunResult.simsOf, hs, winnerLabel]
  · intro name res h
    simp [seedVerdictRow, h]
  · intro all
    simp [eqRows]
  · intro name msg
    have h999 : eqLabel 999 = "SIDED" := by
      unfold eqLabel
      rw [if_neg (by norm_num), if_neg (by norm_num)]
    simp [seedEqRow, eqOf, h999]
  · unfold winnerLabel
    rw [if_pos (by norm_num)]
  · rw [show (0.81 : ℚ) - 0.40 = 0.41 from by norm_num]
    exact abs_of_pos (by norm_num)
  · unfold eqLabel
    rw [if_neg (by norm_num), if_neg (by norm_num)]
  · rw [show (0.55 : ℚ) - 0.50 = 0.05 from by norm_num]
    exact abs_of_pos (by norm_num)
  · unfold eqLabel
    rw [if_pos (by norm_num)]

/-- C6 counterexample: a seed whose run failed (no similarity data at all)
still receives an equidistance label — the default 999 makes it SIDED — so
the summary does not restrict its labels to seeds with similarity data. -/
theorem C6_counterexample_label_without_sims :
    eqRows [("noise", .error "Agent failed on initial interpretation")] =
      [("noise", 999, "SIDED")] ∧
    verdictRows [("noise", .error "Agent failed on initial interpretation")] =
      [] := by
  constructor
  · have h999 : eqLabel 999 = "SIDED" := by
      unfold eqLabel
      rw [if_neg (by norm_num), if_neg (by norm_num)]
    simp [eqRows, seedEqRow, eqOf, h999]
  · rfl

theorem C1_witness :
    (run_dialectic (fun _ => some "x") (fun _ _ => 0) "s" "n" 1).isError = false ∧
    (run_dialectic (fun _ => some "x") (fun _ _ => 0) "s" "n" 1).simsOf.isSome = true ∧
    "similarities" ∈ (run_dialectic (fun _ => some "x") (fun _ _ => 0) "s" "n" 1).keys := by
  cases hrun : run_dialectic (fun _ => some "x") (fun _ _ => 0) "s" "n" 1 with
  | error m =>
    have hne : (run_dialectic (fun _ => some "x") (fun _ _ => 0) "s" "n" 1).isError =
        false := by decide
    rw [hrun] at hne
    exact absurd hne (by simp [RunResult.isError])
  | ok r =>
    have h := C1_similarity_block_iff (fun _ => some "x") (fun _ _ => 0) "s" "n" 1
      r (le_refl 1) hrun
    have haf : r.agent_final = some "x" := by
      have hx : (run_dialectic (fun _ => some "x") (fun _ _ => 0) "s" "n"
          1).agentFinalOf = some "x" := by decide
      rw [hrun] at hx
      exact hx
    have hnf : r.anti_final = some "x" := by
      have hx : (run_dialectic (fun _ => some "x") (fun _ _ => 0) "s" "n"
          1).antiFinalOf = some "x" := by decide
      rw [hrun] at hx
      exact hx
    have hfs : r.final_synthesis = some "x" := by
      have hx : (run_dialectic (fun _ => some "x") (fun _ _ => 0) "s" "n"
          1).finalSynthesisOf = some "x" := by decide
      rw [hrun] at hx
      exact hx
    have hgate : (truthy r.agent_final && truthy r.anti_final &&
        truthy r.final_synthesis) = true := by
      rw [haf, hnf, hfs]
      rfl
    refine ⟨rfl, ?_, ?_⟩
    · show r.similarities.isSome = true
      rw [h.1, hgate]
    · show "similarities" ∈ r.keys
      exact (h.2.2.mpr hgate).1

theorem C2_witness :
    (call_opus (fun i => if i < 3 then .httpError else .success " ok ") 6).1 =
      some (" ok ".trim) ∧
    (call_opus (fun i => if i < 3 then .httpError else .success " ok ") 6).2 =
      (List.range 3).map (fun i => min (10 * 2 ^ i) 120) ∧
    List.Chain' (· ≤ ·)
      (call_opus (fun i => if i < 3 then .httpError else .success " ok ") 6).2 := by
  have h := (C2_amended_retry
      (fun i => if i < 3 then .httpError else .success " ok ")).1 4 " ok "
    (by omega) (by omega)
    (fun i hi => by interval_cases i <;> rfl) rfl
  have hh := h.2.2.2 (fun i hi => by interval_cases i <;> rfl)
  exact ⟨h.1, hh.1, hh.2⟩

theorem C3_witness :
    (run_dialectic (fun i => if i == 1 then none else some "x")
      (fun _ _ => 0) "s" "n" 1).isError = false ∧
    (run_dialectic (fun i => if i == 1 then none else some "x")
      (fun _ _ => 0) "s" "n" 1).transcriptOf =
      [⟨.num 0, .agent, "x"⟩, ⟨.final, .observer_synthesis, "x"⟩] := by
  obtain ⟨r, hr, htr, _, _, _, _, _⟩ :=
    C3_challenge_failure_stops_loop (fun i => if i == 1 then none else some "x")
      (fun _ _ => 0) "s" "n" 1 1 (le_refl 1) (le_refl 1) rfl
      (fun j hj => absurd hj (by omega)) rfl
  rw [hr]
  refine ⟨rfl, ?_⟩
  show r.transcript = _
  rw [htr]
  rfl

theorem C5_witness :
    (run_dialectic (fun _ => some "t") (fun _ _ => 0) "s" "n" 1).isError = false ∧
    "final_synthesis" ∈ (run_dialectic (fun _ => some "t") (fun _ _ => 0)
      "s" "n" 1).keys ∧
    "agent_final" ∈ (run_dialectic (fun _ => some "t") (fun _ _ => 0)
      "s" "n" 1).keys := by
  obtain ⟨r, hr, hk1, hk2, _, _, _, _⟩ :=
    C5_amended_nonfatal (fun _ => some "t") (fun _ _ => 0) "s" "n" 1
      (le_refl 1) rfl
  rw [hr]
  exact ⟨rfl, hk1, hk2⟩

theorem C6_witness :
    seedVerdictRow "noise" (.error "Agent failed on initial interpretation") =
      none ∧
    (eqRows [("noise", .error "Agent failed on initial interpretation")]).length
      = 1 ∧
    seedEqRow "noise" (.error "e") = ("noise", 999, "SIDED") ∧
    winnerLabel 0.81 0.40 = "AGENT" ∧ eqLabel 0.05 = "NOVEL" := by
  have h := C6_amended_summary_labels
  exact ⟨h.2.1 "noise" (.error "Agent failed on initial interpretation") rfl,
    h.2.2.1 [("noise", .error "Agent failed on initial interpretation")],
    h.2.2.2.1 "noise" "e", h.2.2.2.2.1, h.2.2.2.2.2.2.2.2⟩

theorem C7_witness :
    (run_dialectic (fun _ => some "x") (fun _ _ => 0) "s" "n" 1).isError =
      false ∧
    (run_dialectic (fun _ => some "x") (fun _ _ => 0) "s" "n"
      1).equidistanceOf = some |(0 : ℚ) - 0| := by
  cases hrun : run_dialectic (fun _ => some "x") (fun _ _ => 0) "s" "n" 1 with
  | error m =>
    have hne : (run_dialectic (fun _ => some "x") (fun _ _ => 0) "s" "n"
        1).isError = false := by decide
    rw [hrun] at hne
    exact absurd hne (by simp [RunResult.isError])
  | ok r =>
    have hs : r.similarities = some ⟨0, 0, 0⟩ := by
      have hx : (run_dialectic (fun _ => some "x") (fun _ _ => 0) "s" "n"
          1).simsOf = some ⟨0, 0, 0⟩ := by decide
      rw [hrun] at hx
      exact hx
    have h := C7_equidistance_abs_diff (fun _ => some "x") (fun _ _ => 0)
      "s" "n" 1 r ⟨0, 0, 0⟩ (le_refl 1) hrun hs
    exact ⟨rfl, h.1⟩

theorem C8_witness :
    (run_dialectic (fun _ => some "x") (fun _ _ => 0) "seed" "noise"
      2).isError = false ∧
    (run_dialectic (fun _ => some "x") (fun _ _ => 0) "seed" "noise"
      2).transcriptOf.length = 8 ∧
    (run_dialectic (fun _ => some "x") (fun _ _ => 0) "seed" "noise"
      2).transcriptOf.map (fun t => (t.round, t.role)) =
      [(.num 0, .agent), (.num 1, .anti_agent), (.num 1, .agent),
       (.num 1, .observer), (.num 2, .anti_agent), (.num 2, .agent),
       (.num 2, .observer), (.final, .observer_synthesis)] :=
  C8_two_rounds_eight_entries (fun _ => some "x") (fun _ _ => 0) "seed" "noise"
    (fun _ => rfl)

theorem C9_witness :
    List.Chain' (fun a b => tagLE a b = true)
      ((run_dialectic (fun _ => some "x") (fun _ _ => 0) "s" "n"
        1).transcriptOf.map Turn.round) ∧
    ((run_dialectic (fun _ => some "x") (fun _ _ => 0) "s" "n"
      1).transcriptOf.map Turn.round).head? = some (.num 0) := by
  cases hrun : run_dialectic (fun _ => some "x") (fun _ _ => 0) "s" "n" 1 with
  | error m =>
    have hne : (run_dialectic (fun _ => some "x") (fun _ _ => 0) "s" "n"
        1).isError = false := by decide
    rw [hrun] at hne
    exact absurd hne (by simp [RunResult.isError])
  | ok r =>
    have h := C9_amended_round_tags (fun _ => some "x") (fun _ _ => 0) "s" "n"
      1 r (le_refl 1) hrun
    exact ⟨h.1, h.2.2.1⟩

theorem C10_witness :
    (run_dialectic
      (fun i => normalizeFalsy ((fun j => if j == 4 then some "" else some "t") i))
      (fun _ _ => 0) "s" "n" 1).observable =
      (run_dialectic (fun j => if j == 4 then some "" else some "t")
        (fun _ _ => 0) "s" "n" 1).observable ∧
    run_dialectic (fun _ => some "") (fun _ _ => 0) "s" "n" 1 =
      .error "Agent failed on initial interpretation" :=
  ⟨(C10_empty_like_failure (fun j => if j == 4 then some "" else some "t")
      (fun _ _ => 0) "s" "n" 1 (le_refl 1)).1,
    (C10_empty_like_failure (fun _ => some "") (fun _ _ => 0) "s" "n" 1
      (le_refl 1)).2 rfl⟩

